import Mathlib

/-!
Verification of the FRP runtime of `railworks-tstl-template`.

The library represents a stream as a continuation-passing subscription
function `Stream<T> = (next: (value: T) => void) => void`, with closure-local
mutable state per subscription.  We embed each combinator by its action on the
sequence of values delivered to one subscription: a combinator with
closure-local state becomes a recursive function threading that state, so the
list of outputs it produces for a list of delivered inputs is exactly what the
closure-based code passes to its own `next` callback, in order.  Mutable
object state (the subscriber registry `FrpList`, the entity's
`updatingEveryFrame` flag, the hub's shared list) becomes an explicit state
record with one transition function per method, transcribed line by line from
the TypeScript.  Simulated-clock readings and speeds are embedded as rationals.
-/

namespace Frp

/-- `map(valueTransform)(eventStream)` (src/lib/frp.ts): every delivered value
`v` produces one call `next(valueTransform(v))`, in order. -/
def map (valueTransform : α → β) : List α → List β :=
  List.map valueTransform

/-- `filter(predicate)(eventStream)` (src/lib/frp.ts): `next(v)` is called
exactly for the delivered values with `predicate(v)` true. -/
def filter (predicate : α → Bool) : List α → List α :=
  List.filter predicate

/-- `reject(predicate)(eventStream)` (src/lib/frp.ts): opposite of `filter`. -/
def reject (predicate : α → Bool) : List α → List α :=
  List.filter (fun value => !predicate value)

/-- `fold(step, initial)(eventStream)` (src/lib/frp.ts): one closure-local
accumulator per subscription; on each delivered value the code runs
`next((accumulated = step(accumulated, value)))`.  The first argument of the
embedding is the current value of the `accumulated` variable; a fresh
subscription starts it at `initial`. -/
def fold (step : σ → α → σ) : σ → List α → List σ
  | _, [] => []
  | accumulated, value :: rest =>
      step accumulated value :: fold step (step accumulated value) rest

/-- `throttle(ms)(eventStream)` (src/lib/frp.ts): closure-local `last`,
starting at 0.  On each delivered value the code reads the simulated clock
(`now`, in milliseconds); if `last === 0 || now - last > ms` it forwards the
value and sets `last = now`.  The embedding pairs each delivered value with
the clock reading observed at its delivery. -/
def throttle (ms : ℚ) : ℚ → List (ℚ × α) → List α
  | _, [] => []
  | last, (now, value) :: rest =>
      if last = 0 ∨ now - last > ms then value :: throttle ms now rest
      else throttle ms last rest

end Frp

/-- `fsm(initState)` (src/lib/frp-extra.ts): `fold` with accumulator
`(accum, value) => [accum[1], value]`, seeded `[initState, initState]`. -/
def fsm (initState : α) : List α → List (α × α) :=
  Frp.fold (fun accum value => (accum.2, value)) (initState, initState)

section JsValues

/-- A universe of runtime values for the dynamic `instanceof Function` test
of `snapshot` (src/lib/frp.ts).  JavaScript function values are reference
values: a closure is identified by a reference, equality of function values
is reference equality, and invoking a closure with no arguments is resolved
through the running program's closure table (the `call` argument of
`snapshot`).  Representing function values by references, rather than by an
inductive type of Lean functions, keeps self-referential closures
representable: `const b = () => b;` is a legal JavaScript (and Lua) value
whose invocation returns the value itself. -/
inductive JsValue where
  | num (n : ℤ)
  | str (s : String)
  | fnRef (r : ℕ)
deriving DecidableEq

/-- The `behavior instanceof Function` test in `snapshot`. -/
def JsValue.isFunction : JsValue → Bool
  | .fnRef _ => true
  | _ => false

/-- `snapshot(behavior)` (src/lib/frp.ts): if the argument is a function
value, invoke it with no arguments and return the result; otherwise return
the argument itself.  `call` is the closure table of the running program,
mapping each function reference to the result of invoking that closure with
no arguments. -/
def snapshot (call : ℕ → JsValue) : JsValue → JsValue
  | .fnRef r => call r
  | v => v

/-- `liftN(combine, ...behaviors)` (src/lib/frp.ts): returns a function that,
when invoked, maps `snapshot` over the behaviors (in argument order) and
applies `combine` to the results. -/
def liftN (call : ℕ → JsValue) (combine : List JsValue → JsValue)
    (behaviors : List JsValue) : Unit → JsValue :=
  fun _ => combine (behaviors.map (snapshot call))

/-- The closure table of a program containing the single self-returning
closure `const b = () => b;` — invoking function reference 0 returns the
function value itself. -/
def selfClosure : ℕ → JsValue := fun _ => JsValue.fnRef 0

end JsValues

section Authority

/-- `SensedDirection` (src/lib/frp-vehicle.ts). -/
inductive SensedDirection where
  | Backward
  | None
  | Forward
deriving DecidableEq

/-- `VehicleAuthority` (src/lib/frp-vehicle.ts). -/
inductive VehicleAuthority where
  | IsPlayer
  | IsAiParked
  | IsAiMovingForward
  | IsAiMovingBackward
deriving DecidableEq

/-- The step function of the `fold` inside `createAuthorityStream`
(src/lib/frp-vehicle.ts): a speed above `c.stopSpeed` senses Forward, below
`-c.stopSpeed` senses Backward, anything else keeps the accumulated
direction.  `stopSpeed` is the dead-band constant from src/lib/constants. -/
def directionStep (stopSpeed : ℚ) (dir : SensedDirection) (speed : ℚ) :
    SensedDirection :=
  if speed > stopSpeed then SensedDirection.Forward
  else if speed < -stopSpeed then SensedDirection.Backward
  else dir

/-- The `liftN` combiner of `createAuthorityStream` (src/lib/frp-vehicle.ts):
player control wins; otherwise the sensed direction is translated by the
lookup table. -/
def authorityCombine (direction : SensedDirection) (isPlayer : Bool) :
    VehicleAuthority :=
  if isPlayer then VehicleAuthority.IsPlayer
  else
    match direction with
    | SensedDirection.Forward => VehicleAuthority.IsAiMovingForward
    | SensedDirection.None => VehicleAuthority.IsAiParked
    | SensedDirection.Backward => VehicleAuthority.IsAiMovingBackward

/-- The direction fold of `createAuthorityStream` as applied in the source:
accumulator seeded with `SensedDirection.None` over the stream of speed
readings. -/
def directionFoldRun (stopSpeed : ℚ) (speeds : List ℚ) : List SensedDirection :=
  Frp.fold (directionStep stopSpeed) SensedDirection.None speeds

end Authority

section FrpListModel

/-- `FrpList.call(value)` (src/lib/frp-entity.ts) runs
`for (const next of this.nexts) next(value)`, a JavaScript `for...of` loop
over the live array: the iterator re-reads the array on every step, so
callbacks appended by `createStream` during the publish are also visited, at
the positions where they were appended.  Callbacks are defunctionalized as
identifiers; `appends c` lists the subscriber identifiers that callback `c`
registers (via the stream returned by `createStream`) when it is invoked.
`callFuel appends fuel nexts i` returns the invocation log from index `i` on;
`fuel` bounds the number of loop iterations modelled (the real loop need not
terminate if callbacks keep registering new callbacks forever). -/
def callFuel (appends : ℕ → List ℕ) : ℕ → List ℕ → ℕ → List ℕ
  | 0, _, _ => []
  | fuel + 1, nexts, i =>
      match nexts[i]? with
      | Option.none => []
      | Option.some c => c :: callFuel appends fuel (nexts ++ appends c) (i + 1)

/-- Queue view of the same loop: the elements not yet visited, with newly
appended callbacks entering at the back. -/
def callQueue (appends : ℕ → List ℕ) : ℕ → List ℕ → List ℕ
  | 0, _ => []
  | _ + 1, [] => []
  | fuel + 1, c :: rest => c :: callQueue appends fuel (rest ++ appends c)

end FrpListModel

section EntityModel

/-- Observable state of one `FrpEntity` (src/lib/frp-entity.ts): the
`updatingEveryFrame` flag, the number of tick-publishes performed by
`updateList.call`, and the numbers of `BeginUpdate()` and `EndUpdate()` calls
issued to the host. -/
structure EntityState where
  updatingEveryFrame : Bool
  ticks : ℕ
  beginUpdates : ℕ
  endUpdates : ℕ
deriving DecidableEq, Repr

/-- `FrpEntity.activateUpdatesEveryFrame(everyFrame)` (src/lib/frp-entity.ts):
`if (!this.updatingEveryFrame && everyFrame) this.e.BeginUpdate();` then
`this.updatingEveryFrame = everyFrame`.  Note that this method never calls
`EndUpdate()`. -/
def activateUpdatesEveryFrame (everyFrame : Bool) (s : EntityState) :
    EntityState :=
  let s1 :=
    if !s.updatingEveryFrame && everyFrame then
      { s with beginUpdates := s.beginUpdates + 1 }
    else s
  { s1 with updatingEveryFrame := everyFrame }

/-- `FrpEntity.updateLoop()` (src/lib/frp-entity.ts): reads the clock and
publishes one tick via `updateList.call(time)`. -/
def updateLoop (s : EntityState) : EntityState :=
  { s with ticks := s.ticks + 1 }

/-- `FrpEntity.updateLoopFromCallback()` (src/lib/frp-entity.ts): runs
`updateLoop()` only if `!this.updatingEveryFrame`. -/
def updateLoopFromCallback (s : EntityState) : EntityState :=
  if !s.updatingEveryFrame then updateLoop s else s

/-- The `Initialise` slot installed by `FrpEntity.setup()`
(src/lib/frp-entity.ts): `this.onInit(); this.updateLoopFromCallback();`.
The user callback is an arbitrary transformation of the entity state (it may
call `activateUpdatesEveryFrame`). -/
def initialise (onInit : EntityState → EntityState) (s : EntityState) :
    EntityState :=
  updateLoopFromCallback (onInit s)

/-- The `Update` slot installed by `FrpEntity.setup()` (src/lib/frp-entity.ts):
`this.updateLoop(); if (!this.updatingEveryFrame) this.e.EndUpdate();`. -/
def updateSlot (s : EntityState) : EntityState :=
  let s1 := updateLoop s
  if !s1.updatingEveryFrame then { s1 with endUpdates := s1.endUpdates + 1 }
  else s1

/-- `FrpEntity.activateUpdatesEveryFrame` in the alternative copy of the
entity module shipped in the repository (src/unnamed/part_002): there the
on-to-off transition calls `EndUpdate()` directly. -/
def activateUpdatesEveryFrameV2 (everyFrame : Bool) (s : EntityState) :
    EntityState :=
  let s1 :=
    if !s.updatingEveryFrame && everyFrame then
      { s with beginUpdates := s.beginUpdates + 1 }
    else if s.updatingEveryFrame && !everyFrame then
      { s with endUpdates := s.endUpdates + 1 }
    else s
  { s1 with updatingEveryFrame := everyFrame }

/-- A sequence of `activateUpdatesEveryFrame` calls, for either variant of the
method. -/
def runActivations (f : Bool → EntityState → EntityState) (bs : List Bool)
    (s : EntityState) : EntityState :=
  bs.foldl (fun s b => f b s) s

/-- Number of off-to-on transitions of the flag along a call sequence,
starting from flag value `cur`. -/
def countOffOn : Bool → List Bool → ℕ
  | _, [] => 0
  | cur, b :: rest => (if !cur && b then 1 else 0) + countOffOn b rest

/-- Number of on-to-off transitions of the flag along a call sequence,
starting from flag value `cur`. -/
def countOnOff : Bool → List Bool → ℕ
  | _, [] => 0
  | cur, b :: rest => (if cur && !b then 1 else 0) + countOnOff b rest

end EntityModel

section VehicleDispatch

/-- The host callback slots installed by `FrpVehicle.setup()`
(src/lib/frp-vehicle.ts) and `FrpEntity.setup()` (src/lib/frp-entity.ts). -/
inductive VehicleCallback where
  | update
  | onControlValueChange
  | onConsistMessage
  | onCameraEnter
  | onCameraLeave
deriving DecidableEq, Repr

/-- One entry of the dispatch log: a payload publish to the callback's own
`FrpList`, or a tick-publish to the update `FrpList`. -/
inductive DispatchEvent where
  | payload (cb : VehicleCallback)
  | tick
deriving DecidableEq, Repr

/-- What one host callback invocation publishes, given the current value of
`updatingEveryFrame` (src/lib/frp-vehicle.ts `setup`, src/lib/frp-entity.ts
`setup`): the `Update` slot runs `updateLoop()` (one tick-publish); every
other slot publishes its payload to its own list and then runs
`updateLoopFromCallback()`, which tick-publishes exactly when the flag is
off. -/
def dispatchOf (updating : Bool) : VehicleCallback → List DispatchEvent
  | VehicleCallback.update => [DispatchEvent.tick]
  | cb =>
      DispatchEvent.payload cb ::
        (if updating then [] else [DispatchEvent.tick])

/-- Dispatch log of a sequence of host callbacks run under a fixed
`updatingEveryFrame` value (none of the handlers changes the flag). -/
def runCallbacks (updating : Bool) (cbs : List VehicleCallback) :
    List DispatchEvent :=
  cbs.flatMap (dispatchOf updating)

/-- Number of tick-publishes in a dispatch log. -/
def tickCount (log : List DispatchEvent) : ℕ :=
  (log.filter (fun e => e = DispatchEvent.tick)).length

end VehicleDispatch

section HubModel

/-- State of one application of `hub()` (src/lib/frp.ts) to an underlying
stream whose source counts subscriptions: `counter` is the number of times
the underlying stream has been subscribed (each such subscription registers
the hub's fan-out callback once with the source), `nexts` and `isStarted` are
the closure variables of `hub`, and `delivered` logs every
`(subscriber, value)` delivery made by the fan-out, in order.  Hub
subscribers are defunctionalized as identifiers. -/
structure HubState (V : Type) where
  counter : ℕ
  nexts : List ℕ
  isStarted : Bool
  delivered : List (ℕ × V)

/-- Subscribing to the hub's output stream (src/lib/frp.ts `hub`):
`nexts.push(next)`, then, if `!isStarted`, subscribe the underlying stream
(incrementing the source's subscription counter) and set `isStarted`. -/
def hubSubscribe (id : ℕ) (st : HubState V) : HubState V :=
  let st1 := { st with nexts := st.nexts ++ [id] }
  if st1.isStarted then st1
  else { st1 with counter := st1.counter + 1, isStarted := true }

/-- The underlying source produces a value: each registered copy of the hub's
fan-out callback (one per underlying subscription) runs
`nexts.forEach(next => next(value))` over the hub's current subscriber
list. -/
def hubPublish (v : V) (st : HubState V) : HubState V :=
  { st with
      delivered :=
        st.delivered ++
          (List.replicate st.counter (st.nexts.map (fun id => (id, v)))).flatten }

/-- One interaction with the hub: a subscription to its output, or a value
produced by the underlying source. -/
inductive HubEvent (V : Type) where
  | sub (id : ℕ)
  | pub (v : V)

/-- Interpret one hub interaction. -/
def hubStep : HubEvent V → HubState V → HubState V
  | HubEvent.sub id, st => hubSubscribe id st
  | HubEvent.pub v, st => hubPublish v st

/-- Run a sequence of hub interactions. -/
def hubRun (events : List (HubEvent V)) (st : HubState V) : HubState V :=
  events.foldl (fun s e => hubStep e s) st

/-- The hub's closure state before any subscription, next to a source that has
never been subscribed. -/
def hubInit : HubState V :=
  { counter := 0, nexts := [], isStarted := false, delivered := [] }

/-- Whether an interaction sequence contains a subscription. -/
def hasSub : List (HubEvent V) → Bool
  | [] => false
  | HubEvent.sub _ :: _ => true
  | HubEvent.pub _ :: rest => hasSub rest

/-- Whether an interaction sequence subscribes a given identifier. -/
def subscribes (id : ℕ) : List (HubEvent V) → Bool
  | [] => false
  | HubEvent.sub j :: rest => j = id || subscribes id rest
  | HubEvent.pub _ :: rest => subscribes id rest

/-- The values produced by the source along an interaction sequence. -/
def pubValues : List (HubEvent V) → List V
  | [] => []
  | HubEvent.sub _ :: rest => pubValues rest
  | HubEvent.pub v :: rest => v :: pubValues rest

/-- The values delivered to subscriber `id`, in order. -/
def deliveredTo (id : ℕ) (st : HubState V) : List V :=
  (st.delivered.filter (fun p => p.1 = id)).map (fun p => p.2)

/-- A stream pipeline without `hub`, by shape: a source followed by
combinator applications.  (Only the combinators whose subscription behavior
matters here are listed; all non-`hub` combinators behave alike.) -/
inductive StreamDesc where
  | source
  | mapD (d : StreamDesc)
  | filterD (d : StreamDesc)

/-- How many times one subscription to the described stream subscribes the
underlying source: `map(f)(s)` and `filter(p)(s)` (src/lib/frp.ts) each call
`eventStream(...)` exactly once inside the function handed to the
subscriber, so each downstream subscription reaches the source exactly
once. -/
def sourceSubscribes : StreamDesc → ℕ
  | StreamDesc.source => 1
  | StreamDesc.mapD d => sourceSubscribes d
  | StreamDesc.filterD d => sourceSubscribes d

/-- Total number of source subscriptions after `n` independent subscriptions
to the described (hub-less) stream value. -/
def subscribeTimes (n : ℕ) (d : StreamDesc) : ℕ :=
  n * sourceSubscribes d

end HubModel

section FoldIsolation

/-- Two independent subscriptions to the same `fold(step, initial)`-wrapped
stream value (src/lib/frp.ts): each call of the subscription function
allocates its own `accumulated` variable, so the state is a pair of separate
accumulators with separate output logs. -/
structure FoldPair (σ : Type) where
  acc1 : σ
  out1 : List σ
  acc2 : σ
  out2 : List σ

/-- A value delivered to the first or to the second subscription. -/
inductive FoldEvent (α : Type) where
  | toFirst (v : α)
  | toSecond (v : α)

/-- The values an event interleaving delivers to the first subscription. -/
def firstValues : List (FoldEvent α) → List α
  | [] => []
  | FoldEvent.toFirst v :: rest => v :: firstValues rest
  | FoldEvent.toSecond _ :: rest => firstValues rest

/-- The values an event interleaving delivers to the second subscription. -/
def secondValues : List (FoldEvent α) → List α
  | [] => []
  | FoldEvent.toFirst _ :: rest => secondValues rest
  | FoldEvent.toSecond v :: rest => v :: secondValues rest

/-- Deliver one value to one of the two subscriptions: the receiving
closure runs `next((accumulated = step(accumulated, value)))`. -/
def foldDeliver (step : σ → α → σ) : FoldEvent α → FoldPair σ → FoldPair σ
  | FoldEvent.toFirst v, st =>
      { st with acc1 := step st.acc1 v, out1 := st.out1 ++ [step st.acc1 v] }
  | FoldEvent.toSecond v, st =>
      { st with acc2 := step st.acc2 v, out2 := st.out2 ++ [step st.acc2 v] }

/-- Run an interleaving of deliveries to the two subscriptions. -/
def foldPairRun (step : σ → α → σ) (events : List (FoldEvent α))
    (st : FoldPair σ) : FoldPair σ :=
  events.foldl (fun s e => foldDeliver step e s) st

/-- Both subscriptions freshly made: each starts its own accumulator at
`initial` with an empty output log. -/
def foldPairInit (initial : σ) : FoldPair σ :=
  { acc1 := initial, out1 := [], acc2 := initial, out2 := [] }

end FoldIsolation

section VehicleInit

/-- State of the initialization sequence built in the `FrpVehicle`
constructor (src/lib/frp-vehicle.ts): the entity's `updatingEveryFrame` flag
(set to `true` by the constructor's init callback), the accumulator of the
`fsm(false)` stage of `wait$`, and the number of times the `wait$` subscriber
(which switches every-frame updates off and runs `onInitAndSettled`) has
fired. -/
structure VehicleInitState where
  updatingEveryFrame : Bool
  fsmAcc : Bool × Bool
  settledCount : ℕ
deriving DecidableEq, Repr

/-- One tick of the update stream flowing through `wait$`
(src/lib/frp-vehicle.ts): `map(time => time > 0.5)`, then `fsm(false)`
(shift the pair), then `filter(state => !state[0] && state[1])`; when the
filter passes, the subscriber runs `activateUpdatesEveryFrame(false)` and
`onInitAndSettled()`. -/
def vehicleInitTick (time : ℚ) (s : VehicleInitState) : VehicleInitState :=
  let cur := decide (time > 1/2)
  let acc := (s.fsmAcc.2, cur)
  if !acc.1 && acc.2 then
    { updatingEveryFrame := false, fsmAcc := acc,
      settledCount := s.settledCount + 1 }
  else { s with fsmAcc := acc }

/-- Run the ticks delivered to the update stream, in order. -/
def vehicleInitRun (times : List ℚ) (s : VehicleInitState) : VehicleInitState :=
  times.foldl (fun s t => vehicleInitTick t s) s

/-- State right after the constructor's init callback ran: every-frame
updates on, `fsm(false)` seeded with `[false, false]`, callback not yet
fired. -/
def vehicleInitStart : VehicleInitState :=
  { updatingEveryFrame := true, fsmAcc := (false, false), settledCount := 0 }

end VehicleInit

/-- The entity state before `Initialise` fires: flag off, no ticks, no host
update requests yet. -/
def entityStart : EntityState :=
  { updatingEveryFrame := false, ticks := 0, beginUpdates := 0, endUpdates := 0 }

/-- C2, counterexample: feeding `throttle(300)` one value at each clock
reading 0, 100, 400, 600, 800 ms forwards the values read at 0, 100 and 600
(the forward at reading 0 stores `last = 0`, which is the "never forwarded"
sentinel, so the value at 100 is also forwarded; then 400 - 100 = 300 is not
strictly greater than 300), not the values at 0, 400 and 800 as claimed. -/
theorem throttle_gating_cex :
    Frp.throttle 300 0 [(0, 10), (100, 20), (400, 30), (600, 40), (800, 50)]
        = [10, 20, 40] ∧
    Frp.throttle 300 0 [(0, 10), (100, 20), (400, 30), (600, 40), (800, 50)]
        ≠ [10, 30, 50] := by
  have h : Frp.throttle 300 0
      [((0 : ℚ), (10 : ℕ)), (100, 20), (400, 30), (600, 40), (800, 50)]
      = [10, 20, 40] := by
    norm_num [Frp.throttle]
  refine ⟨h, ?_⟩
  rw [h]
  decide

/-- C2, amended: on the clock readings 0, 100, 400, 600, 800 ms,
`throttle(300)` forwards the values read at 0, 100 and 600; in general a
value is forwarded exactly when the stored last-forwarded reading is the 0
sentinel (initially, or after a forward that happened at clock reading 0) or
strictly more than `ms` milliseconds older than the current reading, and a
forward stores the current reading. -/
theorem throttle_gating_amended :
    (Frp.throttle 300 0 [(0, 10), (100, 20), (400, 30), (600, 40), (800, 50)]
        = [10, 20, 40]) ∧
    (∀ {α : Type} (ms now : ℚ) (v : α) (rest : List (ℚ × α)),
        Frp.throttle ms 0 ((now, v) :: rest) = v :: Frp.throttle ms now rest) ∧
    (∀ {α : Type} (ms last now : ℚ) (v : α) (rest : List (ℚ × α)),
        last ≠ 0 → now - last ≤ ms →
        Frp.throttle ms last ((now, v) :: rest) = Frp.throttle ms last rest) ∧
    (∀ {α : Type} (ms last now : ℚ) (v : α) (rest : List (ℚ × α)),
        last ≠ 0 → now - last > ms →
        Frp.throttle ms last ((now, v) :: rest)
          = v :: Frp.throttle ms now rest) := by
  refine ⟨by norm_num [Frp.throttle], ?_, ?_, ?_⟩
  · intro α ms now v rest
    simp [Frp.throttle]
  · intro α ms last now v rest hlast hle
    have hcond : ¬(last = 0 ∨ now - last > ms) := by
      rintro (h | h)
      · exact hlast h
      · exact absurd h (not_lt.mpr hle)
    simp only [Frp.throttle]
    rw [if_neg hcond]
  · intro α ms last now v rest hlast hgt
    simp only [Frp.throttle]
    rw [if_pos (Or.inr hgt)]

/-- Witness for the amended C2 theorem at concrete inputs. -/
theorem throttle_gating_amended_witness :
    Frp.throttle 300 100 [((350 : ℚ), (7 : ℕ))] = [] ∧
    Frp.throttle 300 100 [((500 : ℚ), (7 : ℕ))] = [7] := by
  constructor
  · exact throttle_gating_amended.2.2.1 300 100 350 7 [] (by norm_num) (by norm_num)
  · have h := throttle_gating_amended.2.2.2 300 100 500 7 [] (by norm_num) (by norm_num)
    rw [h]
    simp [Frp.throttle]

/-- C3, counterexample: if the user init callback turns every-frame updates
on, the `Initialise` slot performs no tick-publish at all (the claimed count
of exactly one fails). -/
theorem initialise_tick_cex :
    (initialise (activateUpdatesEveryFrame true) entityStart).ticks = 0 ∧
    (initialise (activateUpdatesEveryFrame true) entityStart).ticks ≠ 1 := by
  constructor
  · decide
  · decide

/-- C3, amended: the `Initialise` slot runs the user init callback once and
then performs exactly one tick-publish if every-frame updates are off when
the callback returns, and none if the callback left them on. -/
theorem initialise_tick_amended (onInit : EntityState → EntityState)
    (s : EntityState) :
    (initialise onInit s).ticks
      = (onInit s).ticks
          + (if (onInit s).updatingEveryFrame then 0 else 1) := by
  unfold initialise updateLoopFromCallback updateLoop
  cases h : (onInit s).updatingEveryFrame <;> simp [h]

lemma runActivations_cons (f : Bool → EntityState → EntityState) (b : Bool)
    (bs : List Bool) (s : EntityState) :
    runActivations f (b :: bs) s = runActivations f bs (f b s) := rfl

lemma activateV1_spec (b : Bool) (s : EntityState) :
    (activateUpdatesEveryFrame b s).updatingEveryFrame = b ∧
    (activateUpdatesEveryFrame b s).beginUpdates
      = s.beginUpdates + (if !s.updatingEveryFrame && b then 1 else 0) ∧
    (activateUpdatesEveryFrame b s).endUpdates = s.endUpdates := by
  unfold activateUpdatesEveryFrame
  cases h : (!s.updatingEveryFrame && b) <;> simp [h]

lemma activateV2_spec (b : Bool) (s : EntityState) :
    (activateUpdatesEveryFrameV2 b s).updatingEveryFrame = b ∧
    (activateUpdatesEveryFrameV2 b s).beginUpdates
      = s.beginUpdates + (if !s.updatingEveryFrame && b then 1 else 0) ∧
    (activateUpdatesEveryFrameV2 b s).endUpdates
      = s.endUpdates + (if s.updatingEveryFrame && !b then 1 else 0) := by
  unfold activateUpdatesEveryFrameV2
  cases hs : s.updatingEveryFrame <;> cases b <;> simp [hs]

lemma runActivations_v1_spec :
    ∀ (bs : List Bool) (s : EntityState),
      (runActivations activateUpdatesEveryFrame bs s).beginUpdates
          = s.beginUpdates + countOffOn s.updatingEveryFrame bs ∧
      (runActivations activateUpdatesEveryFrame bs s).endUpdates
          = s.endUpdates := by
  intro bs
  induction bs with
  | nil => intro s; exact ⟨by simp [runActivations, countOffOn], rfl⟩
  | cons b rest ih =>
      intro s
      rw [runActivations_cons]
      obtain ⟨hflag, hbegin, hend⟩ := activateV1_spec b s
      obtain ⟨ihb, ihe⟩ := ih (activateUpdatesEveryFrame b s)
      constructor
      · rw [ihb, hbegin, hflag]
        simp only [countOffOn]
        omega
      · rw [ihe, hend]

lemma runActivations_v2_spec :
    ∀ (bs : List Bool) (s : EntityState),
      (runActivations activateUpdatesEveryFrameV2 bs s).beginUpdates
          = s.beginUpdates + countOffOn s.updatingEveryFrame bs ∧
      (runActivations activateUpdatesEveryFrameV2 bs s).endUpdates
          = s.endUpdates + countOnOff s.updatingEveryFrame bs := by
  intro bs
  induction bs with
  | nil => intro s; exact ⟨by simp [runActivations, countOffOn], by simp [runActivations, countOnOff]⟩
  | cons b rest ih =>
      intro s
      rw [runActivations_cons]
      obtain ⟨hflag, hbegin, hend⟩ := activateV2_spec b s
      obtain ⟨ihb, ihe⟩ := ih (activateUpdatesEveryFrameV2 b s)
      constructor
      · rw [ihb, hbegin, hflag]
        simp only [countOffOn]
        omega
      · rw [ihe, hend, hflag]
        simp only [countOnOff]
        omega

/-- C8, counterexample: starting with the flag off, the call sequence
`activateUpdatesEveryFrame(true); activateUpdatesEveryFrame(false)` performs
one on-to-off transition but issues zero `EndUpdate()` calls (the method in
src/lib/frp-entity.ts never calls `EndUpdate()`; the release is deferred to
the next host `Update()` callback). -/
theorem activate_updates_cex :
    countOnOff false [true, false] = 1 ∧
    (runActivations activateUpdatesEveryFrame [true, false] entityStart).endUpdates = 0 ∧
    (runActivations activateUpdatesEveryFrame [true, false] entityStart).endUpdates ≠ 1 ∧
    (runActivations activateUpdatesEveryFrame [true, false] entityStart).beginUpdates = 1 := by
  refine ⟨by decide, by decide, by decide, by decide⟩

/-- C8, amended: for every sequence of `activateUpdatesEveryFrame(b)` calls,
`BeginUpdate()` is issued exactly once per off-to-on transition of the flag
and a call that does not change the flag issues nothing; but the current
method never issues `EndUpdate()` — the release is performed by the next host
`Update()` callback, which calls `EndUpdate()` exactly when the flag is off.
The alternative entity variant (src/unnamed/part_002) issues `EndUpdate()`
exactly once per on-to-off transition, as the original claim states. -/
theorem activate_updates_amended (bs : List Bool) (s : EntityState) :
    ((runActivations activateUpdatesEveryFrame bs s).beginUpdates
        = s.beginUpdates + countOffOn s.updatingEveryFrame bs) ∧
    ((runActivations activateUpdatesEveryFrame bs s).endUpdates
        = s.endUpdates) ∧
    ((updateSlot s).endUpdates
        = s.endUpdates + (if s.updatingEveryFrame then 0 else 1)) ∧
    ((runActivations activateUpdatesEveryFrameV2 bs s).beginUpdates
        = s.beginUpdates + countOffOn s.updatingEveryFrame bs) ∧
    ((runActivations activateUpdatesEveryFrameV2 bs s).endUpdates
        = s.endUpdates + countOnOff s.updatingEveryFrame bs) := by
  obtain ⟨h1, h2⟩ := runActivations_v1_spec bs s
  obtain ⟨h3, h4⟩ := runActivations_v2_spec bs s
  refine ⟨h1, h2, ?_, h3, h4⟩
  unfold updateSlot updateLoop
  cases h : s.updatingEveryFrame <;> simp [h]

/-- C5, confirmed: with frame-updates off, each host callback other than
`Update` publishes its payload and then exactly one tick, so a sequence of
such callbacks produces exactly one tick-publish per callback, each
immediately after its payload dispatch, and no tick-publish appears without
a triggering callback; with frame-updates on, each `Update` produces exactly
one tick-publish and the other callbacks publish only their payload. -/
theorem dual_tick_mode :
    (∀ cbs : List VehicleCallback,
        (∀ cb ∈ cbs, cb ≠ VehicleCallback.update) →
        runCallbacks false cbs
            = cbs.flatMap
                (fun cb => [DispatchEvent.payload cb, DispatchEvent.tick]) ∧
        tickCount (runCallbacks false cbs) = cbs.length) ∧
    (∀ cbs : List VehicleCallback,
        runCallbacks true cbs
            = cbs.flatMap
                (fun cb =>
                  if cb = VehicleCallback.update then [DispatchEvent.tick]
                  else [DispatchEvent.payload cb]) ∧
        tickCount (runCallbacks true cbs)
            = (cbs.filter (fun cb => cb = VehicleCallback.update)).length) := by
  constructor
  · intro cbs h
    induction cbs with
    | nil => exact ⟨rfl, rfl⟩
    | cons cb rest ih =>
        have hcb : cb ≠ VehicleCallback.update := h cb (List.mem_cons_self cb rest)
        have hrest := ih (fun c hc => h c (List.mem_cons_of_mem cb hc))
        have hdisp : dispatchOf false cb
            = [DispatchEvent.payload cb, DispatchEvent.tick] := by
          cases cb <;> first | exact absurd rfl hcb | rfl
        constructor
        · simp only [runCallbacks, List.flatMap_cons] at hrest ⊢
          rw [hdisp, hrest.1]
        · simp only [runCallbacks, List.flatMap_cons, tickCount,
            List.filter_append, List.length_append] at hrest ⊢
          rw [hdisp]
          simp only [List.filter, List.length]
          omega
  · intro cbs
    induction cbs with
    | nil => exact ⟨rfl, rfl⟩
    | cons cb rest ih =>
        have hdisp : dispatchOf true cb
            = (if cb = VehicleCallback.update then [DispatchEvent.tick]
               else [DispatchEvent.payload cb]) := by
          cases cb <;> rfl
        constructor
        · simp only [runCallbacks, List.flatMap_cons] at ih ⊢
          rw [hdisp, ih.1]
        · simp only [runCallbacks, List.flatMap_cons, tickCount,
            List.filter_append, List.length_append] at ih ⊢
          rw [hdisp]
          cases cb <;> simp <;> omega

/-- Witness for C5 at a concrete input: five non-frame callbacks with
frame-updates off produce exactly five tick-publishes, each right after its
payload. -/
theorem dual_tick_mode_witness :
    runCallbacks false
        [VehicleCallback.onControlValueChange, VehicleCallback.onConsistMessage,
          VehicleCallback.onCameraEnter, VehicleCallback.onCameraLeave,
          VehicleCallback.onControlValueChange]
        = [VehicleCallback.onControlValueChange, VehicleCallback.onConsistMessage,
            VehicleCallback.onCameraEnter, VehicleCallback.onCameraLeave,
            VehicleCallback.onControlValueChange].flatMap
            (fun cb => [DispatchEvent.payload cb, DispatchEvent.tick]) ∧
    tickCount
        (runCallbacks false
          [VehicleCallback.onControlValueChange, VehicleCallback.onConsistMessage,
            VehicleCallback.onCameraEnter, VehicleCallback.onCameraLeave,
            VehicleCallback.onControlValueChange])
        = [VehicleCallback.onControlValueChange, VehicleCallback.onConsistMessage,
            VehicleCallback.onCameraEnter, VehicleCallback.onCameraLeave,
            VehicleCallback.onControlValueChange].length :=
  dual_tick_mode.1
    [VehicleCallback.onControlValueChange, VehicleCallback.onConsistMessage,
      VehicleCallback.onCameraEnter, VehicleCallback.onCameraLeave,
      VehicleCallback.onControlValueChange]
    (by decide)

/-- C7, confirmed: the direction fold of `createAuthorityStream` keeps the
accumulated direction unchanged on every speed reading inside the dead-band
`[-stopSpeed, stopSpeed]` (from any starting direction, in particular the
initial `SensedDirection.None`), and the `liftN` combiner returns `IsPlayer`
whenever the is-player behavior reads true, whatever direction was sensed. -/
theorem authority_deadband_player :
    (∀ (stopSpeed : ℚ) (dir : SensedDirection) (speeds : List ℚ),
        (∀ s ∈ speeds, -stopSpeed ≤ s ∧ s ≤ stopSpeed) →
        Frp.fold (directionStep stopSpeed) dir speeds
          = List.replicate speeds.length dir) ∧
    (∀ (stopSpeed : ℚ) (speeds : List ℚ),
        (∀ s ∈ speeds, -stopSpeed ≤ s ∧ s ≤ stopSpeed) →
        directionFoldRun stopSpeed speeds
          = List.replicate speeds.length SensedDirection.None) ∧
    (∀ dir : SensedDirection,
        authorityCombine dir true = VehicleAuthority.IsPlayer) := by
  have hstep : ∀ (stopSpeed : ℚ) (dir : SensedDirection) (s : ℚ),
      -stopSpeed ≤ s → s ≤ stopSpeed → directionStep stopSpeed dir s = dir := by
    intro stopSpeed dir s h1 h2
    unfold directionStep
    rw [if_neg (not_lt.mpr h2), if_neg (not_lt.mpr h1)]
  have hfold : ∀ (stopSpeed : ℚ) (speeds : List ℚ) (dir : SensedDirection),
      (∀ s ∈ speeds, -stopSpeed ≤ s ∧ s ≤ stopSpeed) →
      Frp.fold (directionStep stopSpeed) dir speeds
        = List.replicate speeds.length dir := by
    intro stopSpeed speeds
    induction speeds with
    | nil => intro dir _; rfl
    | cons s rest ih =>
        intro dir h
        obtain ⟨h1, h2⟩ := h s (List.mem_cons_self s rest)
        have hs := hstep stopSpeed dir s h1 h2
        simp only [Frp.fold, hs, List.length_cons, List.replicate_succ]
        rw [ih dir (fun x hx => h x (List.mem_cons_of_mem s hx))]
  refine ⟨fun stopSpeed dir speeds h => hfold stopSpeed speeds dir h,
    fun stopSpeed speeds h => hfold stopSpeed speeds SensedDirection.None h,
    fun dir => rfl⟩

/-- Witness for C7 at concrete inputs: with dead-band constant 1, the speed
readings 1/2, -1, 1 (all within the dead-band) leave a previously sensed
Forward direction untouched, and also leave the initial None untouched. -/
theorem authority_deadband_player_witness :
    Frp.fold (directionStep 1) SensedDirection.Forward [1/2, -1, 1]
        = List.replicate ([(1 : ℚ)/2, -1, 1].length) SensedDirection.Forward ∧
    directionFoldRun 1 [1/2, -1, 1]
        = List.replicate ([(1 : ℚ)/2, -1, 1].length) SensedDirection.None := by
  constructor
  · exact authority_deadband_player.1 1 SensedDirection.Forward [1/2, -1, 1]
      (by intro s hs; fin_cases hs <;> norm_num)
  · exact authority_deadband_player.2.1 1 [1/2, -1, 1]
      (by intro s hs; fin_cases hs <;> norm_num)

/-- C10, counterexample: a self-returning closure (`const b = () => b;`,
modelled by the closure table `selfClosure`) is a function value for which
`snapshot` returns `b` itself — `snapshot` invokes it, but the invocation's
result is the very same value.  So "snapshot(b) returns b itself exactly
when b is not a function value" and "a constant behavior whose value is a
function can never be passed through snapshot unchanged" both fail at this
input. -/
theorem snapshot_selfreturning_cex :
    (JsValue.fnRef 0).isFunction = true ∧
    snapshot selfClosure (JsValue.fnRef 0) = JsValue.fnRef 0 :=
  ⟨rfl, rfl⟩

/-- C10, amended: `snapshot(b)` returns `b` itself whenever `b` is not a
function value, and invokes `b`, returning the invocation's result, whenever
`b` is a function value — a function-valued behavior is therefore always
invoked, but the invocation's result can still be `b` itself (a
self-returning closure), so being a function does not guarantee that
`snapshot` changes the value; `liftN` reads its behavior arguments by
applying this same snapshot rule to each, in argument order. -/
theorem snapshot_invokes_functions_amended :
    (∀ (call : ℕ → JsValue) (b : JsValue),
        b.isFunction = false → snapshot call b = b) ∧
    (∀ (call : ℕ → JsValue) (r : ℕ),
        snapshot call (JsValue.fnRef r) = call r) ∧
    (∀ (call : ℕ → JsValue) (combine : List JsValue → JsValue)
        (behaviors : List JsValue),
        liftN call combine behaviors ()
          = combine (behaviors.map (snapshot call))) := by
  refine ⟨?_, fun call r => rfl, fun call combine behaviors => rfl⟩
  intro call b h
  cases b with
  | num n => rfl
  | str s => rfl
  | fnRef r => exact absurd h (by simp [JsValue.isFunction])

/-- Witness for the amended C10 theorem at a concrete input: a number passes
through `snapshot` unchanged. -/
theorem snapshot_invokes_functions_amended_witness :
    snapshot selfClosure (JsValue.num 3) = JsValue.num 3 :=
  snapshot_invokes_functions_amended.1 selfClosure (JsValue.num 3) rfl

lemma foldPairRun_spec (step : σ → α → σ) :
    ∀ (events : List (FoldEvent α)) (st : FoldPair σ),
      (foldPairRun step events st).out1
          = st.out1 ++ Frp.fold step st.acc1 (firstValues events) ∧
      (foldPairRun step events st).out2
          = st.out2 ++ Frp.fold step st.acc2 (secondValues events) := by
  intro events
  induction events with
  | nil => intro st; simp [foldPairRun, firstValues, secondValues, Frp.fold]
  | cons e rest ih =>
      intro st
      cases e with
      | toFirst v =>
          have h := ih (foldDeliver step (FoldEvent.toFirst v) st)
          constructor
          · rw [show foldPairRun step (FoldEvent.toFirst v :: rest) st
                = foldPairRun step rest (foldDeliver step (FoldEvent.toFirst v) st)
              from rfl, h.1]
            simp [foldDeliver, firstValues, Frp.fold]
          · rw [show foldPairRun step (FoldEvent.toFirst v :: rest) st
                = foldPairRun step rest (foldDeliver step (FoldEvent.toFirst v) st)
              from rfl, h.2]
            simp [foldDeliver, secondValues]
      | toSecond v =>
          have h := ih (foldDeliver step (FoldEvent.toSecond v) st)
          constructor
          · rw [show foldPairRun step (FoldEvent.toSecond v :: rest) st
                = foldPairRun step rest (foldDeliver step (FoldEvent.toSecond v) st)
              from rfl, h.1]
            simp [foldDeliver, firstValues]
          · rw [show foldPairRun step (FoldEvent.toSecond v :: rest) st
                = foldPairRun step rest (foldDeliver step (FoldEvent.toSecond v) st)
              from rfl, h.2]
            simp [foldDeliver, secondValues, Frp.fold]

/-- C6, confirmed: for two independent subscriptions to the same
`fold(step, initial)`-wrapped stream, each subscription's output sequence is
the pure fold of exactly the values delivered to that subscription, starting
from its own accumulator at `initial` — so the values delivered to one
subscription have no effect on the other, two interleavings delivering the
same values to a subscription give it the same outputs, and feeding both
subscriptions the same sequence yields identical output sequences. -/
theorem fold_isolation :
    (∀ (σ α : Type) (step : σ → α → σ) (initial : σ)
        (events : List (FoldEvent α)),
        (foldPairRun step events (foldPairInit initial)).out1
            = Frp.fold step initial (firstValues events) ∧
        (foldPairRun step events (foldPairInit initial)).out2
            = Frp.fold step initial (secondValues events)) ∧
    (∀ (σ α : Type) (step : σ → α → σ) (initial : σ)
        (events evts : List (FoldEvent α)),
        firstValues events = firstValues evts →
        (foldPairRun step events (foldPairInit initial)).out1
            = (foldPairRun step evts (foldPairInit initial)).out1) ∧
    (∀ (σ α : Type) (step : σ → α → σ) (initial : σ)
        (events : List (FoldEvent α)),
        firstValues events = secondValues events →
        (foldPairRun step events (foldPairInit initial)).out1
            = (foldPairRun step events (foldPairInit initial)).out2) := by
  have base : ∀ (σ α : Type) (step : σ → α → σ) (initial : σ)
      (events : List (FoldEvent α)),
      (foldPairRun step events (foldPairInit initial)).out1
          = Frp.fold step initial (firstValues events) ∧
      (foldPairRun step events (foldPairInit initial)).out2
          = Frp.fold step initial (secondValues events) := by
    intro σ α step initial events
    have h := foldPairRun_spec step events (foldPairInit initial)
    simpa [foldPairInit] using h
  refine ⟨base, ?_, ?_⟩
  · intro σ α step initial events evts hfv
    rw [(base σ α step initial events).1, (base σ α step initial evts).1, hfv]
  · intro σ α step initial events hfv
    rw [(base σ α step initial events).1, (base σ α step initial events).2, hfv]

/-- Witness for C6 at a concrete input: an interleaving delivering 1 then 2
to each of the two subscriptions of a running-sum fold produces the same
output sequence on both sides. -/
theorem fold_isolation_witness :
    (foldPairRun (fun a v => a + v)
        [FoldEvent.toFirst 1, FoldEvent.toSecond 1,
          FoldEvent.toFirst 2, FoldEvent.toSecond 2]
        (foldPairInit (0 : ℕ))).out1
      = (foldPairRun (fun a v => a + v)
        [FoldEvent.toFirst 1, FoldEvent.toSecond 1,
          FoldEvent.toFirst 2, FoldEvent.toSecond 2]
        (foldPairInit (0 : ℕ))).out2 :=
  fold_isolation.2.2 ℕ ℕ (fun a v => a + v) 0
    [FoldEvent.toFirst 1, FoldEvent.toSecond 1,
      FoldEvent.toFirst 2, FoldEvent.toSecond 2]
    (by decide)

lemma callFuel_eq_callQueue (appends : ℕ → List ℕ) :
    ∀ (fuel : ℕ) (nexts : List ℕ) (i : ℕ),
      callFuel appends fuel nexts i = callQueue appends fuel (nexts.drop i) := by
  intro fuel
  induction fuel with
  | zero => intro nexts i; rfl
  | succ n ih =>
      intro nexts i
      cases h : nexts[i]? with
      | none =>
          have hd : nexts.drop i = [] := by
            rw [List.getElem?_eq_none_iff] at h
            exact List.drop_eq_nil_of_le h
          rw [hd]
          simp [callFuel, callQueue, h]
      | some c =>
          obtain ⟨hlt, he⟩ := List.getElem?_eq_some_iff.mp h
          have hd : nexts.drop i = c :: nexts.drop (i + 1) := by
            rw [List.drop_eq_getElem_cons hlt, he]
          have happ : (nexts ++ appends c).drop (i + 1)
              = nexts.drop (i + 1) ++ appends c :=
            List.drop_append_of_le_length hlt
          rw [hd]
          simp only [callFuel, callQueue, h]
          rw [ih (nexts ++ appends c) (i + 1), happ]

lemma callQueue_one_level (appends : ℕ → List ℕ) :
    ∀ (fuel : ℕ) (q : List ℕ),
      (∀ c ∈ q, ∀ d ∈ appends c, appends d = []) →
      q.length + (q.flatMap appends).length ≤ fuel →
      callQueue appends fuel q = q ++ q.flatMap appends := by
  intro fuel
  induction fuel with
  | zero =>
      intro q hone hlen
      have hq : q = [] := by
        cases q with
        | nil => rfl
        | cons c rest => simp at hlen
      subst hq
      rfl
  | succ n ih =>
      intro q hone hlen
      cases q with
      | nil => rfl
      | cons c rest =>
          have hcnil : (appends c).flatMap appends = [] := by
            rw [List.flatMap_eq_nil_iff]
            exact fun d hd => hone c (List.mem_cons_self c rest) d hd
          have hone2 : ∀ x ∈ rest ++ appends c, ∀ d ∈ appends x, appends d = [] := by
            intro x hx d hd
            rcases List.mem_append.mp hx with hx | hx
            · exact hone x (List.mem_cons_of_mem c hx) d hd
            · have : appends x = [] := hone c (List.mem_cons_self c rest) x hx
              rw [this] at hd
              simp at hd
          have hlen2 : (rest ++ appends c).length
              + ((rest ++ appends c).flatMap appends).length ≤ n := by
            simp only [List.length_append, List.flatMap_append, hcnil,
              List.append_nil] at *
            simp only [List.length_cons, List.flatMap_cons, List.length_append]
              at hlen
            omega
          simp only [callQueue]
          rw [ih (rest ++ appends c) hone2 hlen2]
          simp [List.flatMap_cons, List.flatMap_append, hcnil]

/-- A concrete subscriber-effect table: callback 0 registers a new subscriber
(callback 2) when invoked; every other callback registers nothing. -/
def cexAppends : ℕ → List ℕ := fun c => if c = 0 then [2] else []

/-- C1, counterexample: with callbacks 0 and 1 registered before the publish,
and callback 0 registering a new subscriber (callback 2) when invoked, the
publish loop of `FrpList.call` also invokes callback 2 during the same
in-progress publish — the claimed snapshot-of-list-at-publish-start
semantics (log `[0, 1]`) does not hold. -/
theorem frpList_call_inprogress_cex :
    callFuel cexAppends 10 [0, 1] 0 = [0, 1, 2] ∧
    callFuel cexAppends 10 [0, 1] 0 ≠ [0, 1] ∧
    2 ∈ callFuel cexAppends 10 [0, 1] 0 := by
  refine ⟨by decide, by decide, by decide⟩

/-- C1, amended: publishing invokes every callback registered before the
publish began, in registration order, each exactly once; but a subscriber
registered during the in-progress publish by one of those callbacks IS also
invoked during the same publish, after all previously registered callbacks
(the `for...of` loop iterates over the live, growing array).  Stated for
publishes in which the newly registered subscribers do not themselves
register further callbacks (otherwise the loop can grow forever), with a
fuel bound covering the loop's iterations. -/
theorem frpList_call_order_amended (appends : ℕ → List ℕ) (nexts : List ℕ)
    (fuel : ℕ)
    (hone : ∀ c ∈ nexts, ∀ d ∈ appends c, appends d = [])
    (hfuel : nexts.length + (nexts.flatMap appends).length ≤ fuel) :
    callFuel appends fuel nexts 0 = nexts ++ nexts.flatMap appends := by
  rw [callFuel_eq_callQueue appends fuel nexts 0, List.drop_zero]
  exact callQueue_one_level appends fuel nexts hone hfuel

/-- Witness for the amended C1 theorem at the concrete scenario of the
counterexample. -/
theorem frpList_call_order_amended_witness :
    callFuel cexAppends 10 [0, 1] 0 = [0, 1] ++ [0, 1].flatMap cexAppends :=
  frpList_call_order_amended cexAppends [0, 1] 10 (by decide) (by decide)

lemma vehicleInitRun_cons (t : ℚ) (ts : List ℚ) (s : VehicleInitState) :
    vehicleInitRun (t :: ts) s = vehicleInitRun ts (vehicleInitTick t s) := rfl

lemma vehicleInitRun_low :
    ∀ (ts : List ℚ) (s : VehicleInitState),
      (∀ t ∈ ts, ¬((1 : ℚ)/2 < t)) →
      (vehicleInitRun ts s).settledCount = s.settledCount ∧
      (vehicleInitRun ts s).updatingEveryFrame = s.updatingEveryFrame ∧
      (vehicleInitRun ts s).fsmAcc.2 = (if ts.isEmpty then s.fsmAcc.2 else false) := by
  intro ts
  induction ts with
  | nil => intro s _; exact ⟨rfl, rfl, rfl⟩
  | cons t rest ih =>
      intro s h
      have ht : ¬((1 : ℚ)/2 < t) := h t (List.mem_cons_self t rest)
      have hstep : vehicleInitTick t s = { s with fsmAcc := (s.fsmAcc.2, false) } := by
        unfold vehicleInitTick
        simp [ht, -one_div]
      rw [vehicleInitRun_cons, hstep]
      obtain ⟨h1, h2, h3⟩ := ih { s with fsmAcc := (s.fsmAcc.2, false) }
        (fun x hx => h x (List.mem_cons_of_mem t hx))
      refine ⟨h1, h2, ?_⟩
      rw [h3]
      cases rest <;> simp

lemma vehicleInitRun_high :
    ∀ (ts : List ℚ) (s : VehicleInitState),
      (∀ t ∈ ts, (1 : ℚ)/2 < t) →
      s.fsmAcc.2 = true →
      (vehicleInitRun ts s).settledCount = s.settledCount ∧
      (vehicleInitRun ts s).updatingEveryFrame = s.updatingEveryFrame := by
  intro ts
  induction ts with
  | nil => intro s _ _; exact ⟨rfl, rfl⟩
  | cons t rest ih =>
      intro s h hacc
      have ht : (1 : ℚ)/2 < t := h t (List.mem_cons_self t rest)
      have hstep : vehicleInitTick t s = { s with fsmAcc := (s.fsmAcc.2, true) } := by
        unfold vehicleInitTick
        simp [ht, hacc, -one_div]
      rw [vehicleInitRun_cons, hstep]
      obtain ⟨h1, h2⟩ := ih { s with fsmAcc := (s.fsmAcc.2, true) }
        (fun x hx => h x (List.mem_cons_of_mem t hx)) rfl
      exact ⟨h1, h2⟩

lemma vehicleInit_characterization :
    ∀ ts : List ℚ, ts.Sorted (· ≤ ·) →
      ((vehicleInitRun ts vehicleInitStart).settledCount
          = if ts.any (fun t => decide ((1 : ℚ)/2 < t)) then 1 else 0) ∧
      (ts.any (fun t => decide ((1 : ℚ)/2 < t)) = true →
          (vehicleInitRun ts vehicleInitStart).updatingEveryFrame = false) := by
  intro ts hsorted
  have hsplit := List.takeWhile_append_dropWhile
    (fun t => !decide ((1 : ℚ)/2 < t)) ts
  have hrun : vehicleInitRun ts vehicleInitStart
      = vehicleInitRun (ts.dropWhile (fun t => !decide ((1 : ℚ)/2 < t)))
          (vehicleInitRun (ts.takeWhile (fun t => !decide ((1 : ℚ)/2 < t)))
            vehicleInitStart) := by
    conv_lhs => rw [← hsplit]
    unfold vehicleInitRun
    rw [List.foldl_append]
  have hany : ts.any (fun t => decide ((1 : ℚ)/2 < t))
      = ((ts.takeWhile (fun t => !decide ((1 : ℚ)/2 < t))).any
            (fun t => decide ((1 : ℚ)/2 < t))
          || (ts.dropWhile (fun t => !decide ((1 : ℚ)/2 < t))).any
            (fun t => decide ((1 : ℚ)/2 < t))) := by
    conv_lhs => rw [← hsplit]
    rw [List.any_append]
  have htake : ∀ t ∈ ts.takeWhile (fun t => !decide ((1 : ℚ)/2 < t)),
      ¬((1 : ℚ)/2 < t) := by
    intro t ht
    have := List.mem_takeWhile_imp ht
    simpa using this
  have htakeany : (ts.takeWhile (fun t => !decide ((1 : ℚ)/2 < t))).any
      (fun t => decide ((1 : ℚ)/2 < t)) = false := by
    rw [List.any_eq_false]
    intro t ht
    simpa using htake t ht
  obtain ⟨hs1, hs2, hs3⟩ :=
    vehicleInitRun_low (ts.takeWhile (fun t => !decide ((1 : ℚ)/2 < t)))
      vehicleInitStart htake
  cases hdrop : ts.dropWhile (fun t => !decide ((1 : ℚ)/2 < t)) with
  | nil =>
      have hanyf : ts.any (fun t => decide ((1 : ℚ)/2 < t)) = false := by
        rw [hany, hdrop, htakeany]
        rfl
      rw [hanyf, hrun, hdrop]
      refine ⟨by simpa [vehicleInitRun, vehicleInitStart] using hs1, ?_⟩
      intro hcontra
      simp at hcontra
  | cons b rest =>
      have hb : (1 : ℚ)/2 < b := by
        have := List.head?_dropWhile_not (fun t => !decide ((1 : ℚ)/2 < t)) ts
        rw [hdrop] at this
        simpa using this
      have hrest : ∀ t ∈ rest, (1 : ℚ)/2 < t := by
        have hsub : (b :: rest).Sorted (· ≤ ·) := by
          rw [← hdrop]
          exact hsorted.sublist
            (List.dropWhile_sublist (fun t => !decide ((1 : ℚ)/2 < t)))
        intro t ht
        exact lt_of_lt_of_le hb ((List.sorted_cons.mp hsub).1 t ht)
      set s1 := vehicleInitRun (ts.takeWhile (fun t => !decide ((1 : ℚ)/2 < t)))
        vehicleInitStart with hs1def
      have hs1acc : s1.fsmAcc.2 = false := by
        rw [hs3]
        cases ts.takeWhile (fun t => !decide ((1 : ℚ)/2 < t)) <;>
          simp [vehicleInitStart]
      have hstep : vehicleInitTick b s1
          = { updatingEveryFrame := false, fsmAcc := (s1.fsmAcc.2, true),
              settledCount := s1.settledCount + 1 } := by
        unfold vehicleInitTick
        simp [hb, hs1acc, -one_div]
      have hanyt : ts.any (fun t => decide ((1 : ℚ)/2 < t)) = true := by
        rw [hany, hdrop]
        simp [hb, -one_div]
      obtain ⟨hf1, hf2⟩ := vehicleInitRun_high rest
        { updatingEveryFrame := false, fsmAcc := (s1.fsmAcc.2, true),
          settledCount := s1.settledCount + 1 } hrest rfl
      rw [hanyt, hrun, hdrop, vehicleInitRun_cons, hstep]
      constructor
      · rw [hf1, hs1]
        simp [vehicleInitStart]
      · intro _
        rw [hf2]

/-- C9, confirmed: under monotonically non-decreasing simulation times, the
`wait$` subscriber of the `FrpVehicle` constructor (which switches every-frame
updates off and runs `onInitAndSettled`) fires exactly once if some update
tick's time exceeds 0.5 s and never otherwise: over every prefix of the tick
sequence, the number of firings is 1 if the prefix already contains a time
above 0.5 s and 0 if not (so the callback fires at the first such tick and
never again), and once it has fired the every-frame-update flag is off. -/
theorem vehicle_init_settles_once (times : List ℚ)
    (h : times.Sorted (· ≤ ·)) (n : ℕ) :
    ((vehicleInitRun (times.take n) vehicleInitStart).settledCount
        = if (times.take n).any (fun t => decide ((1 : ℚ)/2 < t)) then 1 else 0) ∧
    ((times.take n).any (fun t => decide ((1 : ℚ)/2 < t)) = true →
        (vehicleInitRun (times.take n) vehicleInitStart).updatingEveryFrame
          = false) :=
  vehicleInit_characterization (times.take n) (h.sublist (List.take_sublist n times))

/-- Witness for C9 at a concrete input: three non-decreasing tick times, the
second of which exceeds 0.5 s. -/
theorem vehicle_init_settles_once_witness :
    ((vehicleInitRun (([0, 3/5, 1] : List ℚ).take 3) vehicleInitStart).settledCount
        = if (([0, 3/5, 1] : List ℚ).take 3).any (fun t => decide ((1 : ℚ)/2 < t))
          then 1 else 0) ∧
    ((([0, 3/5, 1] : List ℚ).take 3).any (fun t => decide ((1 : ℚ)/2 < t)) = true →
        (vehicleInitRun (([0, 3/5, 1] : List ℚ).take 3) vehicleInitStart).updatingEveryFrame
          = false) :=
  vehicle_init_settles_once [0, 3/5, 1] (by norm_num [List.sorted_cons]) 3

lemma hubRun_cons (e : HubEvent V) (es : List (HubEvent V)) (st : HubState V) :
    hubRun (e :: es) st = hubRun es (hubStep e st) := rfl

lemma hub_counter_spec :
    ∀ (events : List (HubEvent V)) (st : HubState V),
      st.counter = (if st.isStarted then 1 else 0) →
      ((hubRun events st).counter
          = if (hubRun events st).isStarted then 1 else 0) ∧
      ((hubRun events st).isStarted = (st.isStarted || hasSub events)) := by
  intro events
  induction events with
  | nil => intro st h; exact ⟨h, by simp [hubRun, hasSub]⟩
  | cons e rest ih =>
      intro st h
      cases e with
      | sub id =>
          rw [hubRun_cons]
          cases hst : st.isStarted with
          | true =>
              have hstep : hubStep (HubEvent.sub id) st
                  = { st with nexts := st.nexts ++ [id] } := by
                unfold hubStep hubSubscribe
                simp [hst]
              rw [hstep]
              obtain ⟨h1, h2⟩ := ih { st with nexts := st.nexts ++ [id] }
                (by simpa [hst] using h)
              refine ⟨h1, ?_⟩
              rw [h2]
              simp [hst, hasSub]
          | false =>
              have hstep : hubStep (HubEvent.sub id) st
                  = { st with
                      nexts := st.nexts ++ [id]
                      counter := st.counter + 1
                      isStarted := true } := by
                unfold hubStep hubSubscribe
                simp [hst]
              rw [hstep]
              obtain ⟨h1, h2⟩ := ih
                { st with
                    nexts := st.nexts ++ [id]
                    counter := st.counter + 1
                    isStarted := true }
                (by simp [hst] at h; simp [h])
              refine ⟨h1, ?_⟩
              rw [h2]
              simp [hasSub]
      | pub v =>
          rw [hubRun_cons]
          have hc : (hubStep (HubEvent.pub v) st).counter = st.counter := rfl
          have hs : (hubStep (HubEvent.pub v) st).isStarted = st.isStarted := rfl
          obtain ⟨h1, h2⟩ := ih (hubStep (HubEvent.pub v) st)
            (by rw [hc, hs]; exact h)
          refine ⟨h1, ?_⟩
          rw [h2, hs]
          simp [hasSub]

lemma filter_map_pair (l : List ℕ) (id : ℕ) (v : V) :
    (l.map (fun x => (x, v))).filter (fun p => p.1 = id)
      = List.replicate (l.count id) (id, v) := by
  induction l with
  | nil => rfl
  | cons x xs ih =>
      by_cases hx : x = id
      · subst hx
        simp [List.count_cons, ih, List.replicate_succ]
      · simp [List.count_cons, hx, ih]

lemma filter_flatten_replicate (p : β → Bool) (n : ℕ) (l : List β) :
    ((List.replicate n l).flatten).filter p
      = (List.replicate n (l.filter p)).flatten := by
  induction n with
  | zero => rfl
  | succ m ih => simp [List.replicate_succ, List.filter_append, ih]

lemma flatten_replicate_replicate (n k : ℕ) (a : β) :
    (List.replicate n (List.replicate k a)).flatten = List.replicate (n * k) a := by
  induction n with
  | zero => simp
  | succ m ih =>
      rw [List.replicate_succ, List.flatten_cons, ih, Nat.succ_mul,
        Nat.add_comm, List.replicate_add]

lemma deliveredTo_publish (id : ℕ) (v : V) (st : HubState V) :
    deliveredTo id (hubPublish v st)
      = deliveredTo id st ++ List.replicate (st.counter * st.nexts.count id) v := by
  unfold deliveredTo hubPublish
  rw [List.filter_append, List.map_append]
  congr 1
  rw [filter_flatten_replicate, filter_map_pair, flatten_replicate_replicate]
  simp

lemma hub_fresh :
    ∀ (id : ℕ) (events : List (HubEvent V)) (st : HubState V),
      subscribes id events = false → st.nexts.count id = 0 →
      deliveredTo id (hubRun events st) = deliveredTo id st ∧
      (hubRun events st).nexts.count id = 0 := by
  intro id events
  induction events with
  | nil => intro st _ hc; exact ⟨rfl, hc⟩
  | cons e rest ih =>
      intro st hsub hc
      cases e with
      | sub j =>
          have hj : j ≠ id ∧ subscribes id rest = false := by
            simp [subscribes] at hsub
            exact hsub
          have hcount : (hubStep (HubEvent.sub j) st).nexts.count id = 0 := by
            unfold hubStep hubSubscribe
            cases hst : st.isStarted <;>
              simp [hst, List.count_append, hc, List.count_singleton, hj.1]
          have hdel : deliveredTo id (hubStep (HubEvent.sub j) st)
              = deliveredTo id st := by
            unfold hubStep hubSubscribe deliveredTo
            cases hst : st.isStarted <;> simp [hst]
          rw [hubRun_cons]
          obtain ⟨h1, h2⟩ := ih (hubStep (HubEvent.sub j) st) hj.2 hcount
          exact ⟨by rw [h1, hdel], h2⟩
      | pub v =>
          have hsub2 : subscribes id rest = false := by
            simpa [subscribes] using hsub
          have hcount : (hubStep (HubEvent.pub v) st).nexts.count id = 0 := hc
          have hdel : deliveredTo id (hubStep (HubEvent.pub v) st)
              = deliveredTo id st := by
            have hp := deliveredTo_publish id v st
            rw [show hubStep (HubEvent.pub v) st = hubPublish v st from rfl, hp,
              hc, Nat.mul_zero]
            simp
          rw [hubRun_cons]
          obtain ⟨h1, h2⟩ := ih (hubStep (HubEvent.pub v) st) hsub2 hcount
          exact ⟨by rw [h1, hdel], h2⟩

lemma hub_after_join :
    ∀ (id : ℕ) (events : List (HubEvent V)) (st : HubState V),
      subscribes id events = false → st.counter = 1 → st.isStarted = true →
      st.nexts.count id = 1 →
      deliveredTo id (hubRun events st) = deliveredTo id st ++ pubValues events := by
  intro id events
  induction events with
  | nil => intro st _ _ _ _; simp [hubRun, pubValues]
  | cons e rest ih =>
      intro st hsub hcnt hstart hone
      cases e with
      | sub j =>
          have hj : j ≠ id ∧ subscribes id rest = false := by
            simp [subscribes] at hsub
            exact hsub
          have hstep : hubStep (HubEvent.sub j) st
              = { st with nexts := st.nexts ++ [j] } := by
            unfold hubStep hubSubscribe
            simp [hstart]
          rw [hubRun_cons, hstep]
          have h := ih { st with nexts := st.nexts ++ [j] } hj.2 hcnt hstart
            (by simp [List.count_append, hone, List.count_singleton, hj.1])
          rw [h]
          simp [deliveredTo, pubValues]
      | pub v =>
          have hsub2 : subscribes id rest = false := by
            simpa [subscribes] using hsub
          rw [hubRun_cons]
          have h := ih (hubStep (HubEvent.pub v) st) hsub2 hcnt hstart hone
          rw [h, show hubStep (HubEvent.pub v) st = hubPublish v st from rfl,
            deliveredTo_publish, hcnt, hone]
          simp [pubValues]

/-- C4, confirmed: the underlying stream of a `hub()` output is subscribed
lazily and at most once — after any interaction sequence the
subscription-counting source has been subscribed once if any subscription to
the hub's output occurred and zero times otherwise (in particular, exactly
once after 3 subscriptions); once started, each value of the source is fanned
out to every subscriber registered so far; a subscriber joining later
receives exactly the values produced after it joined; and without `hub`, `n`
subscriptions to a composed (map-over-map) stream subscribe the counting
source exactly `n` times (3 subscriptions increment it 3 times). -/
theorem hub_memoization :
    (∀ (V : Type) (events : List (HubEvent V)),
        (hubRun events (hubInit : HubState V)).counter
          = if hasSub events then 1 else 0) ∧
    ((hubRun [HubEvent.sub 0, HubEvent.sub 1, HubEvent.sub 2]
        (hubInit : HubState ℕ)).counter = 1) ∧
    (∀ (V : Type) (v : V) (st : HubState V), st.counter = 1 →
        (hubPublish v st).delivered
          = st.delivered ++ st.nexts.map (fun n => (n, v))) ∧
    (∀ (V : Type) (id : ℕ) (e1 e2 : List (HubEvent V)),
        subscribes id e1 = false → subscribes id e2 = false →
        deliveredTo id (hubRun (e1 ++ HubEvent.sub id :: e2) hubInit)
          = pubValues e2) ∧
    (∀ n : ℕ,
        subscribeTimes n (StreamDesc.mapD (StreamDesc.mapD StreamDesc.source))
          = n) ∧
    (subscribeTimes 3 (StreamDesc.mapD (StreamDesc.mapD StreamDesc.source))
        = 3) := by
  have hcounter : ∀ (V : Type) (events : List (HubEvent V)),
      (hubRun events (hubInit : HubState V)).counter
        = if hasSub events then 1 else 0 := by
    intro V events
    obtain ⟨h1, h2⟩ := hub_counter_spec events (hubInit : HubState V) rfl
    rw [h1, h2]
    simp [hubInit]
  refine ⟨hcounter, ?_, ?_, ?_, ?_, ?_⟩
  · rw [hcounter ℕ [HubEvent.sub 0, HubEvent.sub 1, HubEvent.sub 2]]
    rfl
  · intro V v st h
    unfold hubPublish
    rw [h]
    simp
  · intro V id e1 e2 h1 h2
    have hsplit : hubRun (e1 ++ HubEvent.sub id :: e2) (hubInit : HubState V)
        = hubRun e2 (hubSubscribe id (hubRun e1 hubInit)) := by
      unfold hubRun
      rw [List.foldl_append]
      rfl
    obtain ⟨hfd, hfc⟩ := hub_fresh id e1 (hubInit : HubState V) h1 (by simp [hubInit])
    have hinv := (hub_counter_spec e1 (hubInit : HubState V) rfl).1
    set st1 := hubRun e1 (hubInit : HubState V) with hst1
    have hd0 : deliveredTo id st1 = [] := by
      rw [hfd]
      rfl
    cases hst : st1.isStarted with
    | true =>
        have hstep : hubSubscribe id st1
            = { st1 with nexts := st1.nexts ++ [id] } := by
          unfold hubSubscribe
          simp [hst]
        have hc1 : st1.counter = 1 := by rw [hinv, hst]; rfl
        rw [hsplit, hstep]
        rw [hub_after_join id e2 { st1 with nexts := st1.nexts ++ [id] } h2 hc1 hst
          (by simp [List.count_append, hfc, List.count_singleton])]
        rw [show deliveredTo id { st1 with nexts := st1.nexts ++ [id] }
            = deliveredTo id st1 from rfl, hd0]
        rfl
    | false =>
        have hstep : hubSubscribe id st1
            = { st1 with
                nexts := st1.nexts ++ [id]
                counter := st1.counter + 1
                isStarted := true } := by
          unfold hubSubscribe
          simp [hst]
        have hc1 : st1.counter + 1 = 1 := by rw [hinv, hst]; rfl
        rw [hsplit, hstep]
        rw [hub_after_join id e2
          { st1 with
              nexts := st1.nexts ++ [id]
              counter := st1.counter + 1
              isStarted := true } h2 hc1 rfl
          (by simp [List.count_append, hfc, List.count_singleton])]
        rw [show deliveredTo id
            { st1 with
                nexts := st1.nexts ++ [id]
                counter := st1.counter + 1
                isStarted := true }
            = deliveredTo id st1 from rfl, hd0]
        rfl
  · intro n
    simp [subscribeTimes, sourceSubscribes]
  · rfl

/-- Witness for C4 at a concrete input: a subscriber joining after one
produced value receives exactly the two values produced after it joined. -/
theorem hub_memoization_witness :
    deliveredTo 5
        (hubRun
          ([HubEvent.pub 100]
            ++ HubEvent.sub 5 :: [HubEvent.pub 200, HubEvent.sub 6, HubEvent.pub 300])
          (hubInit : HubState ℕ))
      = pubValues [HubEvent.pub 200, HubEvent.sub 6, HubEvent.pub 300] :=
  hub_memoization.2.2.2.1 ℕ 5 [HubEvent.pub 100]
    [HubEvent.pub 200, HubEvent.sub 6, HubEvent.pub 300] rfl rfl

/-- Witness for the amended C3 theorem at a concrete input. -/
theorem initialise_tick_amended_witness :
    (initialise (activateUpdatesEveryFrame true) entityStart).ticks
      = (activateUpdatesEveryFrame true entityStart).ticks
          + (if (activateUpdatesEveryFrame true entityStart).updatingEveryFrame
            then 0 else 1) :=
  initialise_tick_amended (activateUpdatesEveryFrame true) entityStart

/-- Witness for the amended C8 theorem at a concrete input. -/
theorem activate_updates_amended_witness :
    ((runActivations activateUpdatesEveryFrame [true, false] entityStart).beginUpdates
        = entityStart.beginUpdates
            + countOffOn entityStart.updatingEveryFrame [true, false]) ∧
    ((runActivations activateUpdatesEveryFrame [true, false] entityStart).endUpdates
        = entityStart.endUpdates) ∧
    ((updateSlot entityStart).endUpdates
        = entityStart.endUpdates
            + (if entityStart.updatingEveryFrame then 0 else 1)) ∧
    ((runActivations activateUpdatesEveryFrameV2 [true, false] entityStart).beginUpdates
        = entityStart.beginUpdates
            + countOffOn entityStart.updatingEveryFrame [true, false]) ∧
    ((runActivations activateUpdatesEveryFrameV2 [true, false] entityStart).endUpdates
        = entityStart.endUpdates
            + countOnOff entityStart.updatingEveryFrame [true, false]) :=
  activate_updates_amended [true, false] entityStart
